import Mathlib

/-!
Verification of the blueprint binary codec core described by the repository
specification. The repository scripts delegate the codec to an opaque library
(Parser.ParseBlueprintFiles and Parser.WriteBlueprintFiles); the codec itself
is therefore modelled from the specification, while the file assembly logic of
save-blueprint.js (header callback, body chunk callbacks, concatenation) is
embedded from the script source.
-/

namespace Satisfontory

/-- Decode failures, surfaced to the caller as distinct recoverable values. -/
inductive DecodeError where
  | OutOfBounds
  | UnsupportedVersion
  | CorruptData
  deriving DecidableEq

/-- Encode failure raised when a Document violates a structural invariant. -/
inductive EncodeError where
  | EncodingError
  deriving DecidableEq

/-- Modelled from the spec: the Byte Cursor (missing from src, the library is
opaque) reads n bytes at a given offset and fails with OutOfBounds when the
read would exceed the buffer length. -/
def readBytes (buf : List Nat) (off n : Nat) : Except DecodeError (List Nat × Nat) :=
  if off + n ≤ buf.length then .ok ((buf.drop off).take n, off + n) else .error .OutOfBounds

/-- Little endian four byte image of a 32 bit value. -/
def u32bytes (v : Nat) : List Nat :=
  [v % 256, v / 256 % 256, v / 65536 % 256, v / 16777216 % 256]

/-- Little endian reconstruction of a 32 bit value from four bytes. -/
def bytesToU32 : List Nat → Nat
  | [b0, b1, b2, b3] => b0 + 256 * b1 + 65536 * b2 + 16777216 * b3
  | _ => 0

/-- Modelled from the spec: the Byte Cursor primitive readU32 (missing from
src), a little endian 32 bit read built on readBytes. -/
def readU32 (buf : List Nat) (off : Nat) : Except DecodeError (Nat × Nat) :=
  match readBytes buf off 4 with
  | .ok (bs, off2) => .ok (bytesToU32 bs, off2)
  | .error e => .error e

theorem length_u32bytes (v : Nat) : (u32bytes v).length = 4 := rfl

theorem u32bytes_ne_nil (v : Nat) : u32bytes v ≠ [] := by simp [u32bytes]

theorem bytesToU32_u32bytes (v : Nat) (hv : v < 2 ^ 32) : bytesToU32 (u32bytes v) = v := by
  simp only [u32bytes, bytesToU32]
  omega

theorem readU32_eq (buf : List Nat) (off : Nat) :
    readU32 buf off =
      if off + 4 ≤ buf.length then .ok (bytesToU32 ((buf.drop off).take 4), off + 4)
      else .error .OutOfBounds := by
  unfold readU32 readBytes
  by_cases h : off + 4 ≤ buf.length <;> simp [h]

theorem readU32_ok_bound {buf : List Nat} {off v o2 : Nat}
    (h : readU32 buf off = .ok (v, o2)) : o2 = off + 4 ∧ off + 4 ≤ buf.length := by
  rw [readU32_eq] at h
  by_cases hb : off + 4 ≤ buf.length
  · simp [hb] at h
    exact ⟨h.2.symm, hb⟩
  · simp [hb] at h

/-- Helper: when a drop at some offset equals a nonempty append, the offset and
the first block both fit in the buffer. -/
theorem drop_eq_append_le {buf pre rest : List Nat} {off : Nat}
    (h : buf.drop off = pre ++ rest) (hpre : pre ≠ []) : off + pre.length ≤ buf.length := by
  have hlen : buf.length - off = pre.length + rest.length := by
    rw [← List.length_drop, h, List.length_append]
  have hoff : off ≤ buf.length := by
    by_contra h2
    push_neg at h2
    have hnil : buf.drop off = [] := List.drop_eq_nil_of_le (le_of_lt h2)
    rw [hnil] at h
    have := (List.append_eq_nil.mp h.symm).1
    exact hpre this
  have hp : 0 < pre.length := List.length_pos.mpr hpre
  omega

/-- Helper: reading past a block advances the drop view to what follows it. -/
theorem drop_append_after {buf pre rest : List Nat} {off : Nat}
    (h : buf.drop off = pre ++ rest) : buf.drop (off + pre.length) = rest := by
  rw [← List.drop_drop, h, List.drop_left]

/-- Helper: a readU32 succeeds on any buffer whose drop view starts with the
four byte image of a value below 2 to the 32. -/
theorem readU32_of_drop {buf : List Nat} {off v : Nat} {rest : List Nat}
    (h : buf.drop off = u32bytes v ++ rest) (hv : v < 2 ^ 32) :
    readU32 buf off = .ok (v, off + 4) := by
  have hb : off + 4 ≤ buf.length := by
    have := drop_eq_append_le h (u32bytes_ne_nil v)
    simpa [length_u32bytes] using this
  have htake : ((u32bytes v ++ rest).take 4) = u32bytes v := by
    rw [show (4 : Nat) = (u32bytes v).length from rfl]
    exact List.take_left _ _
  rw [readU32_eq, if_pos hb, h, htake, bytesToU32_u32bytes v hv]

/-- Helper: after a successful readU32 the drop view advances four bytes. -/
theorem drop_after_u32 {buf : List Nat} {off v : Nat} {rest : List Nat}
    (h : buf.drop off = u32bytes v ++ rest) : buf.drop (off + 4) = rest := by
  have := drop_append_after h
  simpa [length_u32bytes] using this

/-- Modelled from the spec: the BlueprintHeader of the document model (missing
from src), with format version, object count and bounding footprint metadata. -/
structure BlueprintHeader where
  version : Nat
  objectCount : Nat
  dimX : Nat
  dimY : Nat
  dimZ : Nat
  deriving DecidableEq

/-- Modelled from the spec: a placed object record of the BlueprintBody
(missing from src), with a type identifier, a transform, a self declared
payload length and the raw type specific payload bytes. -/
structure BlueprintRecord where
  typeId : Nat
  posX : Nat
  posY : Nat
  posZ : Nat
  rot : Nat
  declaredLen : Nat
  payload : List Nat
  deriving DecidableEq

/-- Modelled from the spec: the BlueprintConfig companion metadata (missing
from src), stored in the separate config file. -/
structure BlueprintConfig where
  icon : Nat
  category : Nat
  configName : List Nat
  deriving DecidableEq

/-- Modelled from the spec: the Document aggregate of Header, Body and Config
(missing from src), together with the caller supplied display label that is
used only for output labeling. -/
structure Document where
  header : BlueprintHeader
  body : List BlueprintRecord
  config : BlueprintConfig
  label : String
  deriving DecidableEq

/-- Modelled from the spec: the set of recognized magic or version markers of
the main file (missing from src). -/
def supportedVersions : List Nat := [2]

/-- Modelled from the spec: the marker of the separate config file (missing
from src). -/
def configMagic : Nat := 97

/-- Modelled from the spec: the record type identifiers the current format
version interprets (missing from src); records of any other type are kept
with their raw payload instead of aborting the decode. -/
def knownTypes : List Nat := [1, 2, 3]

/-- Record fields fit the 32 bit primitive width, the payload is made of
bytes, and the self declared length describes the payload exactly. -/
abbrev ValidRecord (r : BlueprintRecord) : Prop :=
  r.typeId < 2 ^ 32 ∧ r.posX < 2 ^ 32 ∧ r.posY < 2 ^ 32 ∧ r.posZ < 2 ^ 32 ∧
    r.rot < 2 ^ 32 ∧ r.declaredLen < 2 ^ 32 ∧ r.payload.length = r.declaredLen ∧
    ∀ b ∈ r.payload, b < 256

/-- Header fields fit the 32 bit primitive width. -/
abbrev ValidHeader (hd : BlueprintHeader) : Prop :=
  hd.version < 2 ^ 32 ∧ hd.objectCount < 2 ^ 32 ∧ hd.dimX < 2 ^ 32 ∧
    hd.dimY < 2 ^ 32 ∧ hd.dimZ < 2 ^ 32

/-- Config fields fit the 32 bit primitive width and the stored name is made
of bytes. -/
abbrev ValidConfig (c : BlueprintConfig) : Prop :=
  c.icon < 2 ^ 32 ∧ c.category < 2 ^ 32 ∧ c.configName.length < 2 ^ 32 ∧
    ∀ b ∈ c.configName, b < 256

/-- Structural invariant of a Document: a recognized version, the declared
object count equal to the body record count, and well formed components. -/
abbrev ValidDocument (d : Document) : Prop :=
  d.header.version ∈ supportedVersions ∧ d.header.objectCount = d.body.length ∧
    ValidHeader d.header ∧ (∀ r ∈ d.body, ValidRecord r) ∧ ValidConfig d.config

/-- Modelled from the spec: decode of one self describing object record
(missing from src): type identifier, transform, self declared payload length,
then the payload bytes, failing with CorruptData when the length field implies
a read past the buffer end. -/
def decodeRecord (buf : List Nat) (off : Nat) : Except DecodeError (BlueprintRecord × Nat) :=
  match readU32 buf off with
  | .error e => .error e
  | .ok (typeId, o1) =>
  match readU32 buf o1 with
  | .error e => .error e
  | .ok (posX, o2) =>
  match readU32 buf o2 with
  | .error e => .error e
  | .ok (posY, o3) =>
  match readU32 buf o3 with
  | .error e => .error e
  | .ok (posZ, o4) =>
  match readU32 buf o4 with
  | .error e => .error e
  | .ok (rot, o5) =>
  match readU32 buf o5 with
  | .error e => .error e
  | .ok (declaredLen, o6) =>
  if o6 + declaredLen ≤ buf.length then
    .ok (⟨typeId, posX, posY, posZ, rot, declaredLen, (buf.drop o6).take declaredLen⟩,
      o6 + declaredLen)
  else
    .error .CorruptData

/-- Modelled from the spec: decode of the declared number of object records in
sequence (missing from src). -/
def decodeRecords (buf : List Nat) : Nat → Nat → Except DecodeError (List BlueprintRecord × Nat)
  | 0, off => .ok ([], off)
  | n + 1, off =>
    match decodeRecord buf off with
    | .error e => .error e
    | .ok (r, off2) =>
      match decodeRecords buf n off2 with
      | .error e => .error e
      | .ok (rs, off3) => .ok (r :: rs, off3)

/-- Modelled from the spec: the Binary Schema Decoder for the main file
(missing from src): validate the magic or version marker at offset 0, fail
with UnsupportedVersion if unrecognized, decode the header fields, then the
object count many records. -/
def decodeMain (buf : List Nat) : Except DecodeError (BlueprintHeader × List BlueprintRecord) :=
  match readU32 buf 0 with
  | .error e => .error e
  | .ok (version, o1) =>
    if version ∈ supportedVersions then
      match readU32 buf o1 with
      | .error e => .error e
      | .ok (objectCount, o2) =>
      match readU32 buf o2 with
      | .error e => .error e
      | .ok (dimX, o3) =>
      match readU32 buf o3 with
      | .error e => .error e
      | .ok (dimY, o4) =>
      match readU32 buf o4 with
      | .error e => .error e
      | .ok (dimZ, o5) =>
      match decodeRecords buf objectCount o5 with
      | .error e => .error e
      | .ok (records, _) => .ok (⟨version, objectCount, dimX, dimY, dimZ⟩, records)
    else
      .error .UnsupportedVersion

/-- Modelled from the spec: decode of the config buffer with its own marker
(missing from src). -/
def decodeConfig (buf : List Nat) : Except DecodeError BlueprintConfig :=
  match readU32 buf 0 with
  | .error e => .error e
  | .ok (marker, o1) =>
    if marker = configMagic then
      match readU32 buf o1 with
      | .error e => .error e
      | .ok (icon, o2) =>
      match readU32 buf o2 with
      | .error e => .error e
      | .ok (category, o3) =>
      match readU32 buf o3 with
      | .error e => .error e
      | .ok (nameLen, o4) =>
      match readBytes buf o4 nameLen with
      | .error e => .error e
      | .ok (nameBytes, _) => .ok ⟨icon, category, nameBytes⟩
    else
      .error .UnsupportedVersion

/-- Modelled from the spec: Parser.ParseBlueprintFiles (the library call of
parse-blueprint.js, missing from src): decode the main buffer and the config
buffer into one Document, storing the caller supplied display name as the
label only. -/
def parseBlueprintFiles (label : String) (mainBuf configBuf : List Nat) :
    Except DecodeError Document :=
  match decodeMain mainBuf with
  | .error e => .error e
  | .ok (header, body) =>
    match decodeConfig configBuf with
    | .error e => .error e
    | .ok config => .ok ⟨header, body, config, label⟩

/-- Modelled from the spec: serialization of one object record (missing from
src), the exact byte layout the decoder expects. -/
def encodeRecord (r : BlueprintRecord) : List Nat :=
  u32bytes r.typeId ++ u32bytes r.posX ++ u32bytes r.posY ++ u32bytes r.posZ ++
    u32bytes r.rot ++ u32bytes r.declaredLen ++ r.payload

/-- Modelled from the spec: the header bytes emitted once by the encoder
(missing from src). -/
def headerBytes (hd : BlueprintHeader) : List Nat :=
  u32bytes hd.version ++ u32bytes hd.objectCount ++ u32bytes hd.dimX ++
    u32bytes hd.dimY ++ u32bytes hd.dimZ

/-- Modelled from the spec: the body chunks streamed by the encoder (missing
from src); the body is always delivered in one or more chunks. -/
def bodyChunks (body : List BlueprintRecord) : List (List Nat) :=
  if body.isEmpty then [[]] else body.map encodeRecord

/-- Full main file bytes: the header followed by the body chunks concatenated
in emission order. -/
def mainBytes (hd : BlueprintHeader) (body : List BlueprintRecord) : List Nat :=
  headerBytes hd ++ (body.map encodeRecord).flatten

/-- Modelled from the spec: the config file binary payload produced by the
encoder as a distinct result (missing from src). -/
def encodeConfig (c : BlueprintConfig) : List Nat :=
  u32bytes configMagic ++ u32bytes c.icon ++ u32bytes c.category ++
    u32bytes c.configName.length ++ c.configName

/-- Emission events of the chunked callback encoding interface: one header
delivery or one body chunk delivery. -/
inductive EmitEvent where
  | header (bytes : List Nat)
  | chunk (bytes : List Nat)
  deriving DecidableEq

/-- Modelled from the spec: Parser.WriteBlueprintFiles at the emission level
(the library call of save-blueprint.js, missing from src): fail with
EncodingError when the Document violates an invariant, otherwise emit the
header once, then the body chunks in order, and return the config file bytes
as a distinct result. -/
def writeBlueprintEvents (d : Document) : Except EncodeError (List EmitEvent × List Nat) :=
  if d.header.objectCount = d.body.length ∧ ∀ r ∈ d.body, r.payload.length ≤ r.declaredLen then
    .ok (.header (headerBytes d.header) :: (bodyChunks d.body).map EmitEvent.chunk,
      encodeConfig d.config)
  else
    .error .EncodingError

/-- State of the file assembly script: the last delivered header and the body
chunks collected so far, as in save-blueprint.js. -/
structure SinkState where
  mainFileHeader : Option (List Nat)
  mainFileBodyChunks : List (List Nat)
  deriving DecidableEq

/-- One callback delivery as performed by save-blueprint.js: a header delivery
overwrites the mainFileHeader variable, a chunk delivery is pushed onto the
mainFileBodyChunks array. -/
def applyEvent (s : SinkState) : EmitEvent → SinkState
  | .header h => { mainFileHeader := some h, mainFileBodyChunks := s.mainFileBodyChunks }
  | .chunk c => { mainFileHeader := s.mainFileHeader,
                  mainFileBodyChunks := s.mainFileBodyChunks ++ [c] }

/-- Initial assembly state of save-blueprint.js: no header yet, no chunks. -/
def initSinkState : SinkState := ⟨none, []⟩

/-- Deliveries processed in invocation order, as the callbacks fire. -/
def runEvents (s : SinkState) (events : List EmitEvent) : SinkState :=
  events.foldl applyEvent s

/-- Main file assembly of save-blueprint.js: the held header followed by the
collected chunks concatenated in order. -/
def assembledMain (s : SinkState) : List Nat :=
  (s.mainFileHeader.getD []) ++ s.mainFileBodyChunks.flatten

/-- End to end encode as save-blueprint.js performs it: run the emissions from
a fresh state and assemble the main file bytes next to the config bytes. -/
def writeBlueprintFiles (d : Document) : Except EncodeError (List Nat × List Nat) :=
  match writeBlueprintEvents d with
  | .ok (events, cfg) => .ok (assembledMain (runEvents initSinkState events), cfg)
  | .error e => .error e

/-- Payload of the most recent header delivery, if any. -/
def lastHeader : List EmitEvent → Option (List Nat)
  | [] => none
  | .header h :: rest => some ((lastHeader rest).getD h)
  | .chunk _ :: rest => lastHeader rest

/-- Payloads of all chunk deliveries in invocation order. -/
def chunkPayloads : List EmitEvent → List (List Nat)
  | [] => []
  | .header _ :: rest => chunkPayloads rest
  | .chunk c :: rest => c :: chunkPayloads rest

/-- Number of header deliveries in an emission sequence. -/
def countHeaders (events : List EmitEvent) : Nat :=
  events.countP fun e => match e with | .header _ => true | .chunk _ => false

theorem encodeRecord_length {r : BlueprintRecord} (hpl : r.payload.length = r.declaredLen) :
    (encodeRecord r).length = 24 + r.declaredLen := by
  simp [encodeRecord, length_u32bytes, hpl]
  omega

/-- Helper: a record decode succeeds on any buffer whose drop view starts with
the encoding of a valid record, recovering the record and consuming exactly
its bytes. -/
theorem decodeRecord_of_drop {buf : List Nat} {off : Nat} {r : BlueprintRecord} {rest : List Nat}
    (hv : ValidRecord r) (h : buf.drop off = encodeRecord r ++ rest) :
    decodeRecord buf off = .ok (r, off + 24 + r.declaredLen) := by
  obtain ⟨ht, hx, hy, hz, hrot, hdl, hpl, -⟩ := hv
  rw [encodeRecord] at h
  simp only [List.append_assoc] at h
  have h1 := readU32_of_drop h ht
  have d1 := drop_after_u32 h
  have h2 := readU32_of_drop d1 hx
  have d2 := drop_after_u32 d1
  have h3 := readU32_of_drop d2 hy
  have d3 := drop_after_u32 d2
  have h4 := readU32_of_drop d3 hz
  have d4 := drop_after_u32 d3
  have h5 := readU32_of_drop d4 hrot
  have d5 := drop_after_u32 d4
  have h6 := readU32_of_drop d5 hdl
  have d6 := drop_after_u32 d5
  have hb6 := (readU32_ok_bound h6).2
  have hlen : buf.length - (off + 4 + 4 + 4 + 4 + 4 + 4) = r.payload.length + rest.length := by
    rw [← List.length_drop, d6, List.length_append]
  have hif : off + 4 + 4 + 4 + 4 + 4 + 4 + r.declaredLen ≤ buf.length := by omega
  have htake : ((r.payload ++ rest).take r.declaredLen) = r.payload := by
    rw [← hpl]
    exact List.take_left _ _
  simp only [decodeRecord, h1, h2, h3, h4, h5, h6]
  rw [if_pos hif, d6, htake]

/-- Helper: a sequence of record decodes succeeds on any buffer whose drop
view starts with the concatenated encodings of valid records. -/
theorem decodeRecords_of_drop :
    ∀ (rs : List BlueprintRecord) (buf : List Nat) (off : Nat) (rest : List Nat),
      (∀ r ∈ rs, ValidRecord r) → buf.drop off = (rs.map encodeRecord).flatten ++ rest →
      decodeRecords buf rs.length off = .ok (rs, off + ((rs.map encodeRecord).flatten).length)
  | [], buf, off, rest, _, _ => by simp [decodeRecords]
  | r :: rs, buf, off, rest, hv, h => by
    have hvr : ValidRecord r := hv r (by simp)
    have hvs : ∀ x ∈ rs, ValidRecord x := fun x hx => hv x (by simp [hx])
    simp only [List.map_cons, List.flatten_cons, List.append_assoc] at h
    have h1 := decodeRecord_of_drop hvr h
    have d1 : buf.drop (off + (encodeRecord r).length) =
        (rs.map encodeRecord).flatten ++ rest := drop_append_after h
    rw [encodeRecord_length hvr.2.2.2.2.2.2.1] at d1
    have d1' : buf.drop (off + 24 + r.declaredLen) =
        (rs.map encodeRecord).flatten ++ rest := by
      rw [show off + 24 + r.declaredLen = off + (24 + r.declaredLen) from by omega]
      exact d1
    have ih := decodeRecords_of_drop rs buf (off + 24 + r.declaredLen) rest hvs d1'
    simp only [List.length_cons, decodeRecords, h1, ih, List.map_cons, List.flatten_cons,
      List.length_append, Except.ok.injEq, Prod.mk.injEq, true_and]
    rw [encodeRecord_length hvr.2.2.2.2.2.2.1]
    omega

/-- Helper: decoding the exact encoder output of a well formed header and body
recovers both. -/
theorem decodeMain_encode (hd : BlueprintHeader) (body : List BlueprintRecord)
    (hver : hd.version ∈ supportedVersions) (hcnt : hd.objectCount = body.length)
    (hh : ValidHeader hd) (hrs : ∀ r ∈ body, ValidRecord r) :
    decodeMain (mainBytes hd body) = .ok (hd, body) := by
  obtain ⟨hv1, hv2, hv3, hv4, hv5⟩ := hh
  have h0 : (mainBytes hd body).drop 0 =
      u32bytes hd.version ++ (u32bytes hd.objectCount ++ (u32bytes hd.dimX ++
        (u32bytes hd.dimY ++ (u32bytes hd.dimZ ++
          ((body.map encodeRecord).flatten ++ []))))) := by
    simp [mainBytes, headerBytes, List.append_assoc]
  have h1 := readU32_of_drop h0 hv1
  have d1 := drop_after_u32 h0
  have h2 := readU32_of_drop d1 hv2
  have d2 := drop_after_u32 d1
  have h3 := readU32_of_drop d2 hv3
  have d3 := drop_after_u32 d2
  have h4 := readU32_of_drop d3 hv4
  have d4 := drop_after_u32 d3
  have h5 := readU32_of_drop d4 hv5
  have d5 := drop_after_u32 d4
  have hrec := decodeRecords_of_drop body (mainBytes hd body) (0 + 4 + 4 + 4 + 4 + 4) [] hrs d5
  rw [← hcnt] at hrec
  simp only [decodeMain, h1, h2, h3, h4, h5, if_pos hver, hrec]

/-- Helper: decoding the exact encoder output of a well formed config recovers
it. -/
theorem decodeConfig_encode (c : BlueprintConfig) (hc : ValidConfig c) :
    decodeConfig (encodeConfig c) = .ok c := by
  obtain ⟨hc1, hc2, hc3, -⟩ := hc
  have hm : configMagic < 2 ^ 32 := by norm_num [configMagic]
  have h0 : (encodeConfig c).drop 0 =
      u32bytes configMagic ++ (u32bytes c.icon ++ (u32bytes c.category ++
        (u32bytes c.configName.length ++ (c.configName ++ [])))) := by
    simp [encodeConfig, List.append_assoc]
  have h1 := readU32_of_drop h0 hm
  have d1 := drop_after_u32 h0
  have h2 := readU32_of_drop d1 hc1
  have d2 := drop_after_u32 d1
  have h3 := readU32_of_drop d2 hc2
  have d3 := drop_after_u32 d2
  have h4 := readU32_of_drop d3 hc3
  have d4 := drop_after_u32 d3
  have hname : (encodeConfig c).drop (0 + 4 + 4 + 4 + 4) = c.configName := by
    simpa using d4
  have hlen : (encodeConfig c).length - (0 + 4 + 4 + 4 + 4) = c.configName.length := by
    rw [← List.length_drop, hname]
  have hb4 := (readU32_ok_bound h4).2
  have hif : 0 + 4 + 4 + 4 + 4 + c.configName.length ≤ (encodeConfig c).length := by omega
  have htake : ((encodeConfig c).drop (0 + 4 + 4 + 4 + 4)).take c.configName.length =
      c.configName := by
    rw [hname]
    simp
  simp only [decodeConfig, h1, h2, h3, h4, readBytes, if_pos hif, htake, if_true,
    eq_self_iff_true]

/-- Helper: removing the final byte of the buffer leaves any block strictly
before it intact and shortens the trailing block by one byte. -/
theorem drop_take_truncated {buf : List Nat} {off : Nat} {pre rest : List Nat}
    (h : buf.drop off = pre ++ rest) (hr : rest ≠ []) :
    (buf.take (buf.length - 1)).drop off = pre ++ rest.take (rest.length - 1) := by
  have hlen : buf.length - off = pre.length + rest.length := by
    rw [← List.length_drop, h, List.length_append]
  have hrl : 0 < rest.length := List.length_pos.mpr hr
  have hoff : off ≤ buf.length := by
    by_contra h2
    push_neg at h2
    have hnil : buf.drop off = [] := List.drop_eq_nil_of_le (le_of_lt h2)
    rw [hnil] at h
    have := (List.append_eq_nil.mp h.symm).2
    exact hr this
  rw [List.drop_take, h, List.take_append_eq_append_take]
  have h1 : pre.length ≤ buf.length - 1 - off := by omega
  have h2 : buf.length - 1 - off - pre.length = rest.length - 1 := by omega
  rw [List.take_of_length_le h1, h2]

/-- Helper: the unfolding of one step of decodeRecords. -/
theorem decodeRecords_succ (buf : List Nat) (n off : Nat) :
    decodeRecords buf (n + 1) off =
      match decodeRecord buf off with
      | .error e => .error e
      | .ok (r, off2) =>
        match decodeRecords buf n off2 with
        | .error e => .error e
        | .ok (rs, off3) => .ok (r :: rs, off3) := rfl

/-- Helper: decoding the declared record count from a buffer that ends one
byte short inside the payload of the final record fails with CorruptData. -/
theorem decodeRecords_truncated :
    ∀ (rs : List BlueprintRecord) (rLast : BlueprintRecord) (buf : List Nat) (off : Nat),
      (∀ r ∈ rs, ValidRecord r) → ValidRecord rLast → 0 < rLast.declaredLen →
      buf.drop off = ((rs ++ [rLast]).map encodeRecord).flatten →
      decodeRecords (buf.take (buf.length - 1)) (rs.length + 1) off = .error .CorruptData
  | [], rLast, buf, off, _, hvl, hdl, h => by
    obtain ⟨ht, hx, hy, hz, hrot, hdlb, hpl, -⟩ := hvl
    simp only [List.nil_append, List.map_cons, List.map_nil, List.flatten_cons,
      List.flatten_nil, List.append_nil] at h
    have hpne : rLast.payload ≠ [] := by
      intro hcon
      have h0 : rLast.payload.length = 0 := by rw [hcon]; rfl
      omega
    have hF : buf.drop off =
        (u32bytes rLast.typeId ++ u32bytes rLast.posX ++ u32bytes rLast.posY ++
          u32bytes rLast.posZ ++ u32bytes rLast.rot ++ u32bytes rLast.declaredLen) ++
          rLast.payload := by
      rw [h, encodeRecord]
    have htr := drop_take_truncated hF hpne
    simp only [List.append_assoc] at htr
    have h1 := readU32_of_drop htr ht
    have d1 := drop_after_u32 htr
    have h2 := readU32_of_drop d1 hx
    have d2 := drop_after_u32 d1
    have h3 := readU32_of_drop d2 hy
    have d3 := drop_after_u32 d2
    have h4 := readU32_of_drop d3 hz
    have d4 := drop_after_u32 d3
    have h5 := readU32_of_drop d4 hrot
    have d5 := drop_after_u32 d4
    have h6 := readU32_of_drop d5 hdlb
    have d6 := drop_after_u32 d5
    have hb6 := (readU32_ok_bound h6).2
    have hlen2 : (buf.take (buf.length - 1)).length - (off + 4 + 4 + 4 + 4 + 4 + 4) =
        rLast.payload.length - 1 := by
      rw [← List.length_drop, d6, List.length_take]
      omega
    have hifneg : ¬ (off + 4 + 4 + 4 + 4 + 4 + 4 + rLast.declaredLen ≤
        (buf.take (buf.length - 1)).length) := by omega
    simp only [List.length_nil, Nat.zero_add, decodeRecords, decodeRecord,
      h1, h2, h3, h4, h5, h6, if_neg hifneg]
  | r :: rs, rLast, buf, off, hv, hvl, hdl, h => by
    have hvr : ValidRecord r := hv r (by simp)
    have hvs : ∀ x ∈ rs, ValidRecord x := fun x hx => hv x (by simp [hx])
    simp only [List.cons_append, List.map_cons, List.flatten_cons] at h
    have hJlen : ((rs ++ [rLast]).map encodeRecord).flatten.length =
        ((rs.map encodeRecord).flatten).length + (24 + rLast.declaredLen) := by
      simp [List.map_append, List.flatten_append, encodeRecord_length hvl.2.2.2.2.2.2.1]
    have hJne : ((rs ++ [rLast]).map encodeRecord).flatten ≠ [] := by
      apply List.length_pos.mp
      omega
    have htr := drop_take_truncated h hJne
    have h1 := decodeRecord_of_drop hvr htr
    have d1 := drop_append_after h
    rw [encodeRecord_length hvr.2.2.2.2.2.2.1] at d1
    have d1' : buf.drop (off + 24 + r.declaredLen) =
        ((rs ++ [rLast]).map encodeRecord).flatten := by
      rw [show off + 24 + r.declaredLen = off + (24 + r.declaredLen) from by omega]
      exact d1
    have ih := decodeRecords_truncated rs rLast buf (off + 24 + r.declaredLen) hvs hvl hdl d1'
    simp only [List.length_cons]
    rw [decodeRecords_succ, h1]
    simp [ih]

/-- Helper: the header region occupies twenty bytes. -/
theorem length_headerBytes (hd : BlueprintHeader) : (headerBytes hd).length = 20 := by
  simp [headerBytes, length_u32bytes]

/-- Helper: decoding a main buffer truncated by one byte inside the payload of
its final record fails with CorruptData. -/
theorem decodeMain_truncated (hd : BlueprintHeader) (rs : List BlueprintRecord)
    (rLast : BlueprintRecord) (hver : hd.version ∈ supportedVersions)
    (hcnt : hd.objectCount = rs.length + 1) (hh : ValidHeader hd)
    (hvs : ∀ r ∈ rs, ValidRecord r) (hvl : ValidRecord rLast)
    (hdl : 0 < rLast.declaredLen) :
    decodeMain ((mainBytes hd (rs ++ [rLast])).dropLast) = .error .CorruptData := by
  obtain ⟨hv1, hv2, hv3, hv4, hv5⟩ := hh
  rw [List.dropLast_eq_take]
  have h0 : (mainBytes hd (rs ++ [rLast])).drop 0 =
      headerBytes hd ++ ((rs ++ [rLast]).map encodeRecord).flatten := by
    simp [mainBytes]
  have hJlen : ((rs ++ [rLast]).map encodeRecord).flatten.length =
      ((rs.map encodeRecord).flatten).length + (24 + rLast.declaredLen) := by
    simp [List.map_append, List.flatten_append, encodeRecord_length hvl.2.2.2.2.2.2.1]
  have hJne : ((rs ++ [rLast]).map encodeRecord).flatten ≠ [] := by
    apply List.length_pos.mp
    omega
  have htr := drop_take_truncated h0 hJne
  rw [headerBytes] at htr
  simp only [List.append_assoc] at htr
  have h1 := readU32_of_drop htr hv1
  have d1 := drop_after_u32 htr
  have h2 := readU32_of_drop d1 hv2
  have d2 := drop_after_u32 d1
  have h3 := readU32_of_drop d2 hv3
  have d3 := drop_after_u32 d2
  have h4 := readU32_of_drop d3 hv4
  have d4 := drop_after_u32 d3
  have h5 := readU32_of_drop d4 hv5
  have dJ0 := drop_append_after h0
  rw [length_headerBytes] at dJ0
  have dJ : (mainBytes hd (rs ++ [rLast])).drop (0 + 4 + 4 + 4 + 4 + 4) =
      ((rs ++ [rLast]).map encodeRecord).flatten := by
    simpa using dJ0
  have ih := decodeRecords_truncated rs rLast (mainBytes hd (rs ++ [rLast]))
    (0 + 4 + 4 + 4 + 4 + 4) hvs hvl hdl dJ
  rw [← hcnt] at ih
  simp only [decodeMain, h1, h2, h3, h4, h5, if_pos hver, ih]

/-- Helper: a fold of the assembly step keeps the last delivered header over
the initial one and appends every chunk payload in invocation order. -/
theorem foldl_applyEvent : ∀ (events : List EmitEvent) (s : SinkState),
    List.foldl applyEvent s events =
      ⟨(lastHeader events).or s.mainFileHeader, s.mainFileBodyChunks ++ chunkPayloads events⟩
  | [], s => by
    cases s
    simp [lastHeader, chunkPayloads, Option.or]
  | .header h :: events, s => by
    rw [List.foldl_cons, foldl_applyEvent events _]
    simp only [applyEvent, lastHeader, chunkPayloads]
    cases hlh : lastHeader events <;> simp [Option.or, hlh]
  | .chunk c :: events, s => by
    rw [List.foldl_cons, foldl_applyEvent events _]
    simp [applyEvent, lastHeader, chunkPayloads]

/-- Helper: the closed form of running the deliveries from any sink state. -/
theorem runEvents_eq (events : List EmitEvent) (s : SinkState) :
    runEvents s events =
      ⟨(lastHeader events).or s.mainFileHeader, s.mainFileBodyChunks ++ chunkPayloads events⟩ :=
  foldl_applyEvent events s

/-- Helper: a pure chunk sequence delivers no header. -/
theorem lastHeader_map_chunk : ∀ l : List (List Nat),
    lastHeader (l.map EmitEvent.chunk) = none
  | [] => rfl
  | c :: l => by simp [lastHeader, lastHeader_map_chunk l]

/-- Helper: a pure chunk sequence delivers exactly its chunks. -/
theorem chunkPayloads_map_chunk : ∀ l : List (List Nat),
    chunkPayloads (l.map EmitEvent.chunk) = l
  | [] => rfl
  | c :: l => by simp [chunkPayloads, chunkPayloads_map_chunk l]

/-- Helper: a pure chunk sequence contains zero header deliveries. -/
theorem countHeaders_map_chunk : ∀ l : List (List Nat),
    countHeaders (l.map EmitEvent.chunk) = 0
  | [] => rfl
  | c :: l => by
    simp [countHeaders, List.countP_cons, countHeaders_map_chunk l]

/-- Helper: the body chunks concatenate to the encoded body bytes. -/
theorem bodyChunks_flatten (body : List BlueprintRecord) :
    (bodyChunks body).flatten = (body.map encodeRecord).flatten := by
  cases body <;> simp [bodyChunks]

/-- Helper: the encoder always delivers at least one body chunk. -/
theorem bodyChunks_length_pos (body : List BlueprintRecord) :
    1 ≤ (bodyChunks body).length := by
  cases body <;> simp [bodyChunks]

/-- Helper: a well formed Document passes the encoder invariant checks and
produces the canonical emission sequence and config bytes. -/
theorem writeBlueprintEvents_of_valid (d : Document) (hv : ValidDocument d) :
    writeBlueprintEvents d =
      .ok (.header (headerBytes d.header) :: (bodyChunks d.body).map EmitEvent.chunk,
        encodeConfig d.config) := by
  obtain ⟨-, hcnt, -, hrs, -⟩ := hv
  rw [writeBlueprintEvents,
    if_pos ⟨hcnt, fun r hr => le_of_eq (hrs r hr).2.2.2.2.2.2.1⟩]

/-- Helper: on a Document satisfying the encoder invariants the full pipeline
of save-blueprint.js returns the assembled main bytes and the config bytes. -/
theorem writeBlueprintFiles_eq (d : Document)
    (hcnt : d.header.objectCount = d.body.length)
    (hle : ∀ r ∈ d.body, r.payload.length ≤ r.declaredLen) :
    writeBlueprintFiles d = .ok (mainBytes d.header d.body, encodeConfig d.config) := by
  have he : writeBlueprintEvents d =
      .ok (.header (headerBytes d.header) :: (bodyChunks d.body).map EmitEvent.chunk,
        encodeConfig d.config) := by
    rw [writeBlueprintEvents, if_pos ⟨hcnt, hle⟩]
  simp only [writeBlueprintFiles, he, runEvents_eq]
  simp [assembledMain, initSinkState, lastHeader, chunkPayloads, lastHeader_map_chunk,
    chunkPayloads_map_chunk, bodyChunks_flatten, mainBytes, Option.or]

/-- Helper: decoding the encoder output of a well formed Document under any
display label recovers the Document with that label. -/
theorem parseBlueprintFiles_encoded (d : Document) (label : String) (hv : ValidDocument d) :
    parseBlueprintFiles label (mainBytes d.header d.body) (encodeConfig d.config) =
      .ok ⟨d.header, d.body, d.config, label⟩ := by
  obtain ⟨hver, hcnt, hh, hrs, hcfg⟩ := hv
  have hm := decodeMain_encode d.header d.body hver hcnt hh hrs
  have hc := decodeConfig_encode d.config hcfg
  simp only [parseBlueprintFiles, hm, hc]

/-- Sample record of a recognized type, used by concrete witnesses. -/
def sampleRecord : BlueprintRecord := ⟨1, 10, 20, 30, 40, 2, [7, 9]⟩

/-- Sample record of an unrecognized type, used by concrete witnesses. -/
def unknownRecord : BlueprintRecord := ⟨99, 1, 2, 3, 4, 1, [5]⟩

/-- Sample config, used by concrete witnesses. -/
def sampleConfig : BlueprintConfig := ⟨3, 4, [65, 66]⟩

/-- Sample document with two records, used by concrete witnesses. -/
def sampleDoc : Document :=
  ⟨⟨2, 2, 8, 8, 8⟩, [sampleRecord, unknownRecord], sampleConfig, "bp"⟩

/-- C1: for every valid Document D, decoding the result of encoding D yields a
Document structurally equal to D over Header, Body and Config. -/
theorem decode_encode_roundtrip (d : Document) (label : String) (hv : ValidDocument d) :
    parseBlueprintFiles label (mainBytes d.header d.body) (encodeConfig d.config) =
      .ok ⟨d.header, d.body, d.config, label⟩ :=
  parseBlueprintFiles_encoded d label hv

/-- Witness for C1 at a concrete valid document. -/
theorem decode_encode_roundtrip_witness :
    ValidDocument sampleDoc ∧
      parseBlueprintFiles "bp" (mainBytes sampleDoc.header sampleDoc.body)
        (encodeConfig sampleDoc.config) =
        .ok ⟨sampleDoc.header, sampleDoc.body, sampleDoc.config, "bp"⟩ :=
  ⟨by decide, decode_encode_roundtrip sampleDoc "bp" (by decide)⟩

/-- C2: for every raw byte pair produced by a conformant encoder from a valid
Document, re-encoding the Document obtained by decoding that pair reproduces
exactly the same two byte sequences. -/
theorem encode_decode_roundtrip (main cfg : List Nat) (label : String)
    (h : ∃ d, ValidDocument d ∧ mainBytes d.header d.body = main ∧
      encodeConfig d.config = cfg) :
    ∃ d2, parseBlueprintFiles label main cfg = .ok d2 ∧
      writeBlueprintFiles d2 = .ok (main, cfg) := by
  obtain ⟨d, hv, hmain, hcfg⟩ := h
  refine ⟨⟨d.header, d.body, d.config, label⟩, ?_, ?_⟩
  · rw [← hmain, ← hcfg]
    exact parseBlueprintFiles_encoded d label hv
  · obtain ⟨-, hcnt, -, hrs, -⟩ := hv
    rw [← hmain, ← hcfg]
    exact writeBlueprintFiles_eq ⟨d.header, d.body, d.config, label⟩ hcnt
      fun r hr => le_of_eq (hrs r hr).2.2.2.2.2.2.1

/-- Witness for C2 at the concrete encoder output of the sample document. -/
theorem encode_decode_roundtrip_witness :
    ∃ d2, parseBlueprintFiles "x" (mainBytes sampleDoc.header sampleDoc.body)
        (encodeConfig sampleDoc.config) = .ok d2 ∧
      writeBlueprintFiles d2 =
        .ok (mainBytes sampleDoc.header sampleDoc.body, encodeConfig sampleDoc.config) :=
  encode_decode_roundtrip (mainBytes sampleDoc.header sampleDoc.body)
    (encodeConfig sampleDoc.config) "x" ⟨sampleDoc, by decide, rfl, rfl⟩

/-- C3: for every input buffer whose magic or version marker at offset 0 is
not a recognized version, decode fails with UnsupportedVersion and produces no
Document. -/
theorem unsupported_version_fails (label : String) (mainBuf cfgBuf : List Nat) (v : Nat)
    (h1 : readU32 mainBuf 0 = .ok (v, 4)) (h2 : v ∉ supportedVersions) :
    parseBlueprintFiles label mainBuf cfgBuf = .error DecodeError.UnsupportedVersion := by
  simp only [parseBlueprintFiles, decodeMain, h1, if_neg h2]

/-- Witness for C3 at a concrete buffer carrying the unrecognized marker 9. -/
theorem unsupported_version_fails_witness :
    parseBlueprintFiles "n" [9, 0, 0, 0] [] = .error DecodeError.UnsupportedVersion :=
  unsupported_version_fails "n" [9, 0, 0, 0] [] 9 rfl (by decide)

/-- C4: a body record with an unrecognized type identifier but a valid self
declared length is kept and decode continues through every subsequent record
instead of aborting. -/
theorem unknown_record_type_skipped (d : Document) (rs1 rs2 : List BlueprintRecord)
    (r : BlueprintRecord) (hv : ValidDocument d) (hb : d.body = rs1 ++ r :: rs2)
    (_hunk : r.typeId ∉ knownTypes) :
    decodeMain (mainBytes d.header d.body) = .ok (d.header, rs1 ++ r :: rs2) := by
  obtain ⟨hver, hcnt, hh, hrs, -⟩ := hv
  rw [← hb]
  exact decodeMain_encode d.header d.body hver hcnt hh hrs

/-- Witness for C4: the sample body ends with a record of unrecognized type 99
and decode still returns both records. -/
theorem unknown_record_type_skipped_witness :
    unknownRecord.typeId ∉ knownTypes ∧
      decodeMain (mainBytes sampleDoc.header sampleDoc.body) =
        .ok (sampleDoc.header, [sampleRecord] ++ unknownRecord :: []) :=
  ⟨by decide,
    unknown_record_type_skipped sampleDoc [sampleRecord] [] unknownRecord (by decide) rfl
      (by decide)⟩

/-- C5: truncating a valid encoded main buffer by one byte inside the declared
length of its final record makes decode fail with CorruptData or OutOfBounds,
never returning a Document. -/
theorem truncated_record_fails (d : Document) (rs : List BlueprintRecord)
    (rLast : BlueprintRecord) (hv : ValidDocument d) (hb : d.body = rs ++ [rLast])
    (hdl : 0 < rLast.declaredLen) :
    decodeMain ((mainBytes d.header d.body).dropLast) = .error DecodeError.CorruptData ∨
      decodeMain ((mainBytes d.header d.body).dropLast) = .error DecodeError.OutOfBounds := by
  left
  obtain ⟨hver, hcnt, hh, hrs, -⟩ := hv
  rw [hb] at hcnt hrs ⊢
  have hcnt2 : d.header.objectCount = rs.length + 1 := by
    rw [hcnt]
    simp
  have hvs : ∀ x ∈ rs, ValidRecord x := fun x hx =>
    hrs x (List.mem_append_left _ hx)
  have hvl : ValidRecord rLast := hrs rLast (by simp)
  exact decodeMain_truncated d.header rs rLast hver hcnt2 hh hvs hvl hdl

/-- Witness for C5 at the concrete sample document, whose final record has a
nonempty declared payload. -/
theorem truncated_record_fails_witness :
    decodeMain ((mainBytes sampleDoc.header sampleDoc.body).dropLast) =
        .error DecodeError.CorruptData ∨
      decodeMain ((mainBytes sampleDoc.header sampleDoc.body).dropLast) =
        .error DecodeError.OutOfBounds :=
  truncated_record_fails sampleDoc [sampleRecord] unknownRecord (by decide) rfl (by decide)

/-- C6: encoding is deterministic and stateless per call: whatever emission
sequence an encode call on D produces, running it from any prior sink state
delivers the same header bytes, appends the same body chunks in the same
order, and returns the same config bytes, all determined by D alone. -/
theorem encode_deterministic (d : Document) (events : List EmitEvent) (cfg : List Nat)
    (h : writeBlueprintEvents d = .ok (events, cfg)) (s : SinkState) :
    (runEvents s events).mainFileHeader = some (headerBytes d.header) ∧
      (runEvents s events).mainFileBodyChunks =
        s.mainFileBodyChunks ++ bodyChunks d.body ∧
      cfg = encodeConfig d.config := by
  rw [writeBlueprintEvents] at h
  by_cases hc : d.header.objectCount = d.body.length ∧
      ∀ r ∈ d.body, r.payload.length ≤ r.declaredLen
  · rw [if_pos hc] at h
    simp only [Except.ok.injEq, Prod.mk.injEq] at h
    obtain ⟨hev, hcfg⟩ := h
    subst hev hcfg
    rw [runEvents_eq]
    simp [lastHeader, chunkPayloads, lastHeader_map_chunk, chunkPayloads_map_chunk, Option.or]
  · rw [if_neg hc] at h
    exact absurd h (by simp)

/-- Witness for C6 at the sample document and a concrete nonempty prior sink
state. -/
theorem encode_deterministic_witness :
    (runEvents ⟨some [1], [[2]]⟩
        (.header (headerBytes sampleDoc.header) ::
          (bodyChunks sampleDoc.body).map EmitEvent.chunk)).mainFileHeader =
      some (headerBytes sampleDoc.header) ∧
    (runEvents ⟨some [1], [[2]]⟩
        (.header (headerBytes sampleDoc.header) ::
          (bodyChunks sampleDoc.body).map EmitEvent.chunk)).mainFileBodyChunks =
      [[2]] ++ bodyChunks sampleDoc.body ∧
    encodeConfig sampleDoc.config = encodeConfig sampleDoc.config :=
  encode_deterministic sampleDoc
    (.header (headerBytes sampleDoc.header) :: (bodyChunks sampleDoc.body).map EmitEvent.chunk)
    (encodeConfig sampleDoc.config) rfl ⟨some [1], [[2]]⟩

/-- C7: on a valid Document the encoder emits the header exactly once and
first, then the body in one or more chunks, the assembled main file bytes are
the header followed by the chunks concatenated in emission order, and the
config bytes are produced as a separate result. -/
theorem encode_emission_layout (d : Document) (hv : ValidDocument d) :
    writeBlueprintEvents d =
      .ok (.header (headerBytes d.header) :: (bodyChunks d.body).map EmitEvent.chunk,
        encodeConfig d.config) ∧
    countHeaders
      (.header (headerBytes d.header) :: (bodyChunks d.body).map EmitEvent.chunk) = 1 ∧
    1 ≤ (bodyChunks d.body).length ∧
    assembledMain (runEvents initSinkState
        (.header (headerBytes d.header) :: (bodyChunks d.body).map EmitEvent.chunk)) =
      headerBytes d.header ++ (bodyChunks d.body).flatten ∧
    writeBlueprintFiles d = .ok (mainBytes d.header d.body, encodeConfig d.config) := by
  obtain ⟨-, hcnt, -, hrs, -⟩ := hv
  have hle : ∀ r ∈ d.body, r.payload.length ≤ r.declaredLen :=
    fun r hr => le_of_eq (hrs r hr).2.2.2.2.2.2.1
  refine ⟨?_, ?_, bodyChunks_length_pos d.body, ?_, writeBlueprintFiles_eq d hcnt hle⟩
  · rw [writeBlueprintEvents, if_pos ⟨hcnt, hle⟩]
  · simp [countHeaders, List.countP_cons, countHeaders_map_chunk (bodyChunks d.body)]
  · rw [runEvents_eq]
    simp [assembledMain, initSinkState, lastHeader, chunkPayloads, lastHeader_map_chunk,
      chunkPayloads_map_chunk, Option.or]

/-- Witness for C7 at the concrete sample document. -/
theorem encode_emission_layout_witness :
    writeBlueprintEvents sampleDoc =
      .ok (.header (headerBytes sampleDoc.header) ::
          (bodyChunks sampleDoc.body).map EmitEvent.chunk,
        encodeConfig sampleDoc.config) ∧
    countHeaders
      (.header (headerBytes sampleDoc.header) ::
        (bodyChunks sampleDoc.body).map EmitEvent.chunk) = 1 ∧
    1 ≤ (bodyChunks sampleDoc.body).length ∧
    assembledMain (runEvents initSinkState
        (.header (headerBytes sampleDoc.header) ::
          (bodyChunks sampleDoc.body).map EmitEvent.chunk)) =
      headerBytes sampleDoc.header ++ (bodyChunks sampleDoc.body).flatten ∧
    writeBlueprintFiles sampleDoc =
      .ok (mainBytes sampleDoc.header sampleDoc.body, encodeConfig sampleDoc.config) :=
  encode_emission_layout sampleDoc (by decide)

/-- C8: a Document whose declared object count differs from its record count,
or one of whose records has a payload longer than its own declared length
field, makes encode fail with EncodingError instead of emitting output. -/
theorem invalid_document_encoding_error (d : Document)
    (h : d.header.objectCount ≠ d.body.length ∨
      ∃ r ∈ d.body, r.declaredLen < r.payload.length) :
    writeBlueprintEvents d = .error EncodeError.EncodingError := by
  rw [writeBlueprintEvents, if_neg]
  rintro ⟨hcnt, hle⟩
  rcases h with h | ⟨r, hr, hlt⟩
  · exact h hcnt
  · have := hle r hr
    omega

/-- Witness for C8 at a concrete document whose header declares five objects
over a two record body. -/
theorem invalid_document_encoding_error_witness :
    writeBlueprintEvents ⟨⟨2, 5, 8, 8, 8⟩, [sampleRecord, unknownRecord], sampleConfig, "bp"⟩ =
      .error EncodeError.EncodingError :=
  invalid_document_encoding_error
    ⟨⟨2, 5, 8, 8, 8⟩, [sampleRecord, unknownRecord], sampleConfig, "bp"⟩
    (Or.inl (by decide))

/-- C9: the caller supplied display name never influences the decoded binary
content: for any two names over the same byte pair, the Header, Body and
Config of the decode results coincide; the name only fills the output label. -/
theorem display_name_independence (l1 l2 : String) (mainBuf cfgBuf : List Nat) :
    (parseBlueprintFiles l1 mainBuf cfgBuf).map (fun d => (d.header, d.body, d.config)) =
      (parseBlueprintFiles l2 mainBuf cfgBuf).map (fun d => (d.header, d.body, d.config)) := by
  unfold parseBlueprintFiles
  cases decodeMain mainBuf with
  | error e => rfl
  | ok p =>
    obtain ⟨hd, bd⟩ := p
    cases decodeConfig cfgBuf with
    | error e => rfl
    | ok c => rfl

/-- C10: in the assembly of save-blueprint.js, when the header callback fires
more than once only the most recently delivered header remains (earlier ones
are overwritten), while every chunk ever delivered is appended in invocation
order, and the assembled main file is that last header followed by all the
chunks. -/
theorem assembly_last_header_all_chunks (events : List EmitEvent)
    (_h : 2 ≤ countHeaders events) :
    (runEvents initSinkState events).mainFileHeader = lastHeader events ∧
      (runEvents initSinkState events).mainFileBodyChunks = chunkPayloads events ∧
      assembledMain (runEvents initSinkState events) =
        (lastHeader events).getD [] ++ (chunkPayloads events).flatten := by
  rw [runEvents_eq]
  refine ⟨?_, by simp [initSinkState], ?_⟩
  · cases lastHeader events <;> simp [Option.or, initSinkState]
  · cases hlh : lastHeader events <;> simp [assembledMain, initSinkState, Option.or, hlh]

/-- Witness for C10 at a concrete delivery sequence with two header calls. -/
theorem assembly_last_header_all_chunks_witness :
    (runEvents initSinkState
        [.header [1], .chunk [2], .header [3], .chunk [4]]).mainFileHeader =
      lastHeader [.header [1], .chunk [2], .header [3], .chunk [4]] ∧
    (runEvents initSinkState
        [.header [1], .chunk [2], .header [3], .chunk [4]]).mainFileBodyChunks =
      chunkPayloads [.header [1], .chunk [2], .header [3], .chunk [4]] ∧
    assembledMain (runEvents initSinkState
        [.header [1], .chunk [2], .header [3], .chunk [4]]) =
      (lastHeader [.header [1], .chunk [2], .header [3], .chunk [4]]).getD [] ++
        (chunkPayloads [.header [1], .chunk [2], .header [3], .chunk [4]]).flatten :=
  assembly_last_header_all_chunks [.header [1], .chunk [2], .header [3], .chunk [4]]
    (by decide)

end Satisfontory
